import Mathlib

/-
Verification of the restic fuse virtual-file engine (src/restic/fuse/file.go)
and the webdav backend listing (src/restic/backend/webdav).

Shallow embedding conventions:
  * Go machine integers are modelled as `Nat` (uint, uint64, non-negative
    int64 values) or `Int` (signed int64 read offsets).  The only place a
    conversion wraps is `uint64(offset)` in `file.Read`, modelled by
    `goUInt64`.
  * Byte slices are `List Nat`; blob identifiers (`restic.ID`) are `Nat`.
  * The `BlobLoader` interface is a record of (pure, deterministic)
    functions returning `Except`; the blob type argument (`restic.DataBlob`
    everywhere in this file) is dropped.
  * The process-wide `sync.Pool` of buffers is a `List (List Nat)` threaded
    explicitly; `Get` pops the head (or allocates a fresh default-capacity
    buffer) and `Put` pushes.  Slice capacity is identified with slice
    length, so `buf = buf[:cap(buf)]` is the identity.
-/

namespace Restic

/-- Node metadata used by the fuse file (restic.Node fields read by
file.go): declared size, ordered chunk id list, and the attribute fields. -/
structure Node where
  name : String
  size : Nat
  content : List Nat
  inode : Nat
  mode : Nat
  uid : Nat
  gid : Nat
  accessTime : Int
  changeTime : Int
  modTime : Int
  deriving Repr, DecidableEq

/-- BlobLoader (file.go lines 28-31): size lookup and blob load for data
blobs.  `loadBlob id buf` returns the written initial segment `buf[:n]` of the
supplied buffer on success (Go returns the count `n`; the caller only ever
uses `buf[:n]`). -/
structure BlobLoader (ε : Type) where
  lookupBlobSize : Nat → Except ε Nat
  loadBlob : Nat → List Nat → Except ε (List Nat)

/-- The fuse file handle (file.go lines 33-40): node, ownership flag, the
eagerly looked-up per-chunk sizes and the lazily filled per-chunk cache. -/
structure File where
  node : Node
  ownerIsRoot : Bool
  sizes : List Nat
  blobs : List (Option (List Nat))
  deriving Repr, DecidableEq

/-- file.go line 42: `defaultBlobSize = 128 * 1024`. -/
def defaultBlobSize : Nat := 128 * 1024

/-- The buffer pool (file.go lines 44-48), as the multiset of idle buffers. -/
abbrev Pool := List (List Nat)

/-- `blobPool.Get()`: reuse an idle buffer or allocate a fresh one of the
default capacity (the pool's `New`). -/
def poolGet (pool : Pool) : List Nat × Pool :=
  match pool with
  | [] => (List.replicate defaultBlobSize 0, [])
  | b :: rest => (b, rest)

/-- `blobPool.Put(buf)`. -/
def poolPut (pool : Pool) (b : List Nat) : Pool := b :: pool

/-- The size-lookup loop of `newFile` (file.go lines 53-62): look up every
chunk size in order, stopping at the first error. -/
def lookupSizes {ε : Type} (repo : BlobLoader ε) : List Nat → Except ε (List Nat)
  | [] => .ok []
  | id :: rest =>
    match repo.lookupBlobSize id with
    | .error e => .error e
    | .ok s =>
      match lookupSizes repo rest with
      | .error e => .error e
      | .ok ss => .ok (s :: ss)

/-- `newFile` (file.go lines 50-76): look up all chunk sizes; on success,
correct the node's declared size to the actual sum when they differ, and
return the file with an empty chunk cache. -/
def newFile {ε : Type} (repo : BlobLoader ε) (node : Node) (ownerIsRoot : Bool) :
    Except ε File :=
  match lookupSizes repo node.content with
  | .error e => .error e
  | .ok sizes =>
    let bytes := sizes.sum
    let node' := if bytes ≠ node.size then { node with size := bytes } else node
    .ok { node := node', ownerIsRoot := ownerIsRoot, sizes := sizes,
          blobs := List.replicate node.content.length none }

/-- file.go line 20: the block size reported in stat. -/
def blockSize : Nat := 512

/-- The attribute record filled in by `file.Attr` (bazil fuse.Attr fields
written by file.go lines 80-92; unset fields keep the kernel zero default). -/
structure FuseAttr where
  inode : Nat
  mode : Nat
  size : Nat
  blocks : Nat
  blkSize : Nat
  uid : Nat
  gid : Nat
  accessTime : Int
  changeTime : Int
  modTime : Int
  deriving Repr, DecidableEq

/-- `file.Attr` (file.go lines 78-94): report the (corrected) node size,
`size / blockSize + 1` blocks of 512 bytes, and uid/gid only when the
owner is not root (otherwise the zero default). -/
def fileAttr (f : File) : FuseAttr :=
  { inode := f.node.inode
    mode := f.node.mode
    size := f.node.size
    blocks := f.node.size / blockSize + 1
    blkSize := blockSize
    uid := if f.ownerIsRoot then 0 else f.node.uid
    gid := if f.ownerIsRoot then 0 else f.node.gid
    accessTime := f.node.accessTime
    changeTime := f.node.changeTime
    modTime := f.node.modTime }

/-- `file.getBlobAt` (file.go lines 96-120): return the cached chunk if
present; otherwise take a buffer from the pool, grow it (returning the
too-small buffer to the pool only when it is larger than the default
capacity) when the known chunk size does not fit, load the blob, and cache
the loaded initial segment.  On a load error nothing is cached and the acquired
buffer is dropped, exactly as in the Go code. -/
def getBlobAt {ε : Type} (repo : BlobLoader ε) (f : File) (pool : Pool) (i : Nat) :
    Except ε (List Nat) × File × Pool :=
  match f.blobs.getD i none with
  | some b => (.ok b, f, pool)
  | none =>
    let gp := poolGet pool
    let sz := f.sizes.getD i 0
    let bp : List Nat × Pool :=
      if gp.1.length < sz then
        (List.replicate sz 0,
         if defaultBlobSize < gp.1.length then poolPut gp.2 gp.1 else gp.2)
      else gp
    match repo.loadBlob (f.node.content.getD i 0) bp.1 with
    | .error e => (.error e, f, bp.2)
    | .ok b => (.ok b, { f with blobs := f.blobs.set i (some b) }, bp.2)

/-- The ways `file.Read` fails: the explicit "offset greater than files
size" error, a propagated blob-load error, or a Go runtime fault from
indexing `f.sizes` out of range in the skip loop (unreachable for files
built by `newFile` and in-range offsets). -/
inductive ReadError (ε : Type) where
  | offsetGreaterThanFileSize : ReadError ε
  | blob : ε → ReadError ε
  | indexOutOfRange : ReadError ε
  deriving Repr, DecidableEq

/-- Go's `uint64(offset)` conversion of an int64. -/
def goUInt64 (o : Int) : Nat := (o % (2 ^ 64)).toNat

/-- The skip loop of `file.Read` (file.go lines 139-143): advance past the
chunks wholly before the offset; returns the starting chunk index and the
residual intra-chunk offset, or `none` when Go would index `f.sizes` out of
range. -/
def skipBlobs (sizes : List Nat) (offset : Nat) : Option (Nat × Nat) :=
  match sizes with
  | [] => none
  | s :: rest =>
    if s < offset then
      (skipBlobs rest (offset - s)).map (fun p => (p.1 + 1, p.2))
    else
      some (0, offset)

/-- The copy loop of `file.Read` (file.go lines 145-164): from chunk `i`
while bytes remain and chunks are left, fetch the chunk, drop the residual
offset (first chunk only), copy what fits, and accumulate.  `fuel` bounds
the recursion; any `fuel ≥ f.sizes.length - i` reproduces the Go loop. -/
def readBlobs {ε : Type} (repo : BlobLoader ε) :
    Nat → File → Pool → Nat → Nat → Nat → List Nat →
    Except (ReadError ε) (List Nat) × File × Pool
  | 0, f, pool, _, _, _, acc => (.ok acc, f, pool)
  | fuel + 1, f, pool, i, offset, remaining, acc =>
    if remaining = 0 ∨ f.sizes.length ≤ i then (.ok acc, f, pool)
    else
      match getBlobAt repo f pool i with
      | (.error e, f', pool') => (.error (.blob e), f', pool')
      | (.ok blob, f', pool') =>
        let blob' := blob.drop offset
        let copied := min remaining blob'.length
        readBlobs repo fuel f' pool' (i + 1) 0 (remaining - copied)
          (acc ++ blob'.take copied)

/-- `file.Read` (file.go lines 122-168): reject offsets whose uint64 image
exceeds the file size, return empty data for empty files, then skip to the
starting chunk and copy up to `reqSize` bytes.  Returns the response data
together with the updated file and pool. -/
def read {ε : Type} (repo : BlobLoader ε) (f : File) (pool : Pool)
    (offset : Int) (reqSize : Nat) :
    Except (ReadError ε) (List Nat) × File × Pool :=
  if f.node.size < goUInt64 offset then
    (.error .offsetGreaterThanFileSize, f, pool)
  else if f.node.size = 0 then
    (.ok [], f, pool)
  else
    match skipBlobs f.sizes offset.toNat with
    | none => (.error .indexOutOfRange, f, pool)
    | some (start, off) => readBlobs repo f.sizes.length f pool start off reqSize []

/-- The loop body of `file.Release` (file.go lines 171-176): clear every
cache slot, returning each held buffer to the pool. -/
def releaseBlobs : List (Option (List Nat)) → Pool → List (Option (List Nat)) × Pool
  | [], pool => ([], pool)
  | none :: rest, pool =>
    let r := releaseBlobs rest pool
    (none :: r.1, r.2)
  | some b :: rest, pool =>
    let r := releaseBlobs rest (poolPut pool b)
    (none :: r.1, r.2)

/-- `file.Release` (file.go lines 170-178): always succeeds. -/
def release (f : File) (pool : Pool) : File × Pool :=
  let r := releaseBlobs f.blobs pool
  ({ f with blobs := r.1 }, r.2)

end Restic

namespace Webdav

/-- One `response` entry of the PROPFIND multi-status document
(src/restic/backend/webdav/schema.go). -/
structure DavResponse where
  HREF : String
  deriving Repr, DecidableEq

/-- The decoded multi-status listing document (schema.go lines 3-7). -/
structure Multistatus where
  Response : List DavResponse
  deriving Repr, DecidableEq

/-- The href entries of the document, in document order (the collection the
`List` goroutine ranges over). -/
def Multistatus.hrefs (m : Multistatus) : List String :=
  m.Response.map (fun r => r.HREF)

/-- The emitting goroutine of `webdavBackend.List`: before each send the
`select` races the send against `done`; `done k` says whether the consumer
has cancelled before the k-th send.  On cancellation the channel closes
with no further names. -/
def emitHrefs (names : List String) (done : Nat → Bool) : Nat → List String :=
  fun k =>
    match names with
    | [] => []
    | n :: rest => if done k then [] else n :: emitHrefs rest done (k + 1)

/-- `webdavBackend.List` (webdav backend, lines 265-319), as the total
sequence of names sent over the channel before it closes: a request,
transport or decode failure closes the channel immediately with no names;
a decoded document yields its href entries in order. -/
def webdavList {ε : Type} (decoded : Except ε Multistatus) (done : Nat → Bool) :
    List String :=
  match decoded with
  | .error _ => []
  | .ok ms => emitHrefs ms.hrefs done 0

end Webdav

/-
Theorems.  The claim theorems below are stated over the embedded
definitions; helper lemmas (shared) come first.
-/

open Restic Webdav

namespace Restic

lemma getD_replicate_none (n k : Nat) :
    (List.replicate n (none : Option (List Nat))).getD k none = none := by
  induction n generalizing k with
  | zero => simp [List.getD]
  | succ n ih =>
    cases k with
    | zero => simp [List.replicate]
    | succ k => simp [List.replicate, ih k]

lemma getD_set_opt (l : List (Option (List Nat))) (i : Nat) (v : List Nat) (k : Nat) :
    (l.set i (some v)).getD k none =
      if k = i ∧ i < l.length then some v else l.getD k none := by
  simp only [List.getD_eq_getElem?_getD, List.getElem?_set]
  by_cases h1 : i = k
  · subst h1
    by_cases h2 : i < l.length
    · simp [h2]
    · simp [h2, List.getElem?_eq_none (Nat.le_of_not_lt h2)]
  · have h1' : ¬ (k = i) := fun h => h1 h.symm
    simp [h1, h1']

lemma newFile_inv {ε : Type} {repo : BlobLoader ε} {node : Node} {root : Bool} {f : File}
    (h : newFile repo node root = .ok f) :
    lookupSizes repo node.content = .ok f.sizes ∧
    f.node.size = f.sizes.sum ∧
    f.node.content = node.content ∧
    f.blobs = List.replicate node.content.length none := by
  unfold newFile at h
  cases hl : lookupSizes repo node.content with
  | error e => rw [hl] at h; cases h
  | ok sizes =>
    rw [hl] at h
    simp only [Except.ok.injEq] at h
    subst h
    by_cases hb : sizes.sum = node.size
    · simp [hl, hb]
    · simp [hl, hb]

lemma releaseBlobs_spec (bs : List (Option (List Nat))) (pool : Pool) :
    (releaseBlobs bs pool).1 = List.replicate bs.length none ∧
    (releaseBlobs bs pool).2 = bs.reduceOption.reverse ++ pool := by
  induction bs generalizing pool with
  | nil => simp [releaseBlobs]
  | cons hd tl ih =>
    cases hd with
    | none =>
      have h := ih pool
      simp [releaseBlobs, List.replicate, h.1, h.2]
    | some b =>
      have h := ih (poolPut pool b)
      simp only [poolPut] at h
      simp [releaseBlobs, List.replicate, h.1, h.2, poolPut]

lemma releaseBlobs_replicate_none (n : Nat) (pool : Pool) :
    releaseBlobs (List.replicate n none) pool = (List.replicate n none, pool) := by
  induction n generalizing pool with
  | zero => simp [releaseBlobs]
  | succ n ih => simp [List.replicate, releaseBlobs, ih]

end Restic

namespace Restic

/-- A file handle with the given node size and no chunks, for concrete
attribute and read examples. -/
def sampleFile (n : Nat) : File :=
  { node := { name := "sample", size := n, content := [], inode := 1, mode := 420,
              uid := 0, gid := 0, accessTime := 0, changeTime := 0, modTime := 0 },
    ownerIsRoot := false, sizes := [], blobs := [] }

/-- A loader used by examples in which no blob operation may be consulted. -/
def unitRepo : BlobLoader Unit :=
  { lookupBlobSize := fun _ => .ok 0, loadBlob := fun _ _ => .ok [] }

lemma release_of_blobs_none (g : File) (pool : Pool)
    (hg : g.blobs = List.replicate g.blobs.length none) :
    release g pool = (g, pool) := by
  unfold release
  rw [hg, releaseBlobs_replicate_none]
  rw [← hg]

end Restic

/-- C7: `Release` always succeeds (it is a total function on file states),
clears every chunk-cache slot, returns exactly the cached chunk buffers to
the buffer pool, and is idempotent: releasing the released state changes
nothing. -/
theorem release_clears_cache_and_is_idempotent (f : Restic.File) (pool : Restic.Pool) :
    (∀ j, (Restic.release f pool).1.blobs.getD j none = none) ∧
    (Restic.release f pool).2 = f.blobs.reduceOption.reverse ++ pool ∧
    Restic.release (Restic.release f pool).1 (Restic.release f pool).2 =
      Restic.release f pool := by
  obtain ⟨h1, h2⟩ := Restic.releaseBlobs_spec f.blobs pool
  refine ⟨?_, ?_, ?_⟩
  · intro j
    show ({ f with blobs := (Restic.releaseBlobs f.blobs pool).1 } : Restic.File).blobs.getD
        j none = none
    rw [h1]
    exact Restic.getD_replicate_none _ j
  · exact h2
  · have hb : (Restic.release f pool).1.blobs = List.replicate f.blobs.length none := by
      show ({ f with blobs := (Restic.releaseBlobs f.blobs pool).1 } : Restic.File).blobs = _
      rw [h1]
    have hr := Restic.release_of_blobs_none (Restic.release f pool).1
      (Restic.release f pool).2 (by rw [hb]; simp)
    simpa using hr

/-- C8: `Attr` always reports block size 512 and block count
`size / 512 + 1`; in particular node sizes 0, 512 and 1024 give block
counts 1, 2 and 3. -/
theorem attr_block_count :
    (∀ f : Restic.File, (Restic.fileAttr f).blkSize = 512 ∧
      (Restic.fileAttr f).blocks = f.node.size / 512 + 1) ∧
    (Restic.fileAttr (Restic.sampleFile 0)).blocks = 1 ∧
    (Restic.fileAttr (Restic.sampleFile 512)).blocks = 2 ∧
    (Restic.fileAttr (Restic.sampleFile 1024)).blocks = 3 :=
  ⟨fun _ => ⟨rfl, rfl⟩, rfl, rfl, rfl⟩

namespace Webdav

lemma emitHrefs_of_no_cancel (names : List String) (done : Nat → Bool)
    (h : ∀ j, done j = false) : ∀ k, emitHrefs names done k = names := by
  induction names with
  | nil => intro k; rfl
  | cons n rest ih => intro k; simp [emitHrefs, h k, ih]

end Webdav

/-- C9: a listing response successfully decoded into a multi-status document
yields exactly the document's href entries, one at a time, in document
order, before the sequence closes, provided the consumer never cancels. -/
theorem webdavList_yields_hrefs (ε : Type) (ms : Webdav.Multistatus)
    (done : Nat → Bool) (h : ∀ k, done k = false) :
    Webdav.webdavList (Except.ok ms : Except ε Webdav.Multistatus) done = ms.hrefs := by
  simp [Webdav.webdavList, Webdav.emitHrefs_of_no_cancel ms.hrefs done h 0]

/-- Witness for C9: a document with two href entries yields exactly those
two names in order. -/
theorem webdavList_yields_hrefs_witness :
    Webdav.webdavList (Except.ok ⟨[⟨"/keys/a"⟩, ⟨"/keys/b"⟩]⟩ : Except Unit Webdav.Multistatus)
      (fun _ => false) = ["/keys/a", "/keys/b"] :=
  (webdavList_yields_hrefs Unit ⟨[⟨"/keys/a"⟩, ⟨"/keys/b"⟩]⟩ (fun _ => false)
    (fun _ => rfl)).trans rfl

namespace Restic

/-- A node declaring size 999 whose two chunks actually sum to 150. -/
def demoNode : Node :=
  { name := "demo", size := 999, content := [7, 8], inode := 2, mode := 420,
    uid := 1000, gid := 1000, accessTime := 0, changeTime := 0, modTime := 0 }

/-- A loader knowing chunk 7 (100 bytes of 1) and chunk 8 (50 bytes of 2). -/
def demoRepo : BlobLoader Unit :=
  { lookupBlobSize := fun id =>
      if id = 7 then .ok 100 else if id = 8 then .ok 50 else .error ()
    loadBlob := fun id _ =>
      if id = 7 then .ok (List.replicate 100 1)
      else if id = 8 then .ok (List.replicate 50 2)
      else .error () }

/-- The file `newFile demoRepo demoNode false` constructs. -/
def demoFile : File :=
  { node := { demoNode with size := 150 }, ownerIsRoot := false,
    sizes := [100, 50], blobs := [none, none] }

/-- A loader that fails every operation. -/
def failRepo : BlobLoader Unit :=
  { lookupBlobSize := fun _ => .error (), loadBlob := fun _ _ => .error () }

/-- A one-chunk file whose chunk 7 is already cached as `[9]`. -/
def cachedFile : File :=
  { node := { demoNode with size := 1, content := [7] }, ownerIsRoot := false,
    sizes := [1], blobs := [some [9]] }

/-- A one-chunk file whose cache slot is still empty. -/
def uncachedFile : File :=
  { node := { demoNode with size := 100, content := [7] }, ownerIsRoot := false,
    sizes := [100], blobs := [none] }

lemma lookupSizes_error_of_mem {ε : Type} (repo : BlobLoader ε) :
    ∀ l : List Nat, (∃ id ∈ l, ∃ e, repo.lookupBlobSize id = .error e) →
      ∃ id e, id ∈ l ∧ repo.lookupBlobSize id = .error e ∧
        lookupSizes repo l = .error e := by
  intro l
  induction l with
  | nil => rintro ⟨id, h, _⟩; cases h
  | cons hd tl ih =>
    rintro ⟨id, hmem, e, he⟩
    cases hhd : repo.lookupBlobSize hd with
    | error e0 =>
      exact ⟨hd, e0, List.mem_cons_self hd tl, hhd, by simp [lookupSizes, hhd]⟩
    | ok s =>
      have hid : id ∈ tl := by
        rcases List.mem_cons.mp hmem with h | h
        · subst h; rw [hhd] at he; cases he
        · exact h
      obtain ⟨id', e', hm', he', hls⟩ := ih ⟨id, hid, e, he⟩
      exact ⟨id', e', List.mem_cons_of_mem _ hm', he',
        by simp [lookupSizes, hhd, hls]⟩

end Restic

/-- C2: when the declared node size differs from the sum of the chunk sizes
reported by the blob source, the attributes of the file built by `newFile`
report the actual sum, never the stale declared value. -/
theorem attr_reports_corrected_size (ε : Type) (repo : Restic.BlobLoader ε)
    (node : Restic.Node) (root : Bool) (f : Restic.File) (sizes : List Nat)
    (hl : Restic.lookupSizes repo node.content = .ok sizes)
    (hnew : Restic.newFile repo node root = .ok f)
    (hne : sizes.sum ≠ node.size) :
    (Restic.fileAttr f).size = sizes.sum ∧ (Restic.fileAttr f).size ≠ node.size := by
  obtain ⟨hl', hsum, -, -⟩ := Restic.newFile_inv hnew
  have hs : sizes = f.sizes := by
    have h := hl.symm.trans hl'
    exact Except.ok.inj h
  constructor
  · show f.node.size = sizes.sum
    rw [hsum, hs]
  · show f.node.size ≠ node.size
    rw [hsum, ← hs]
    exact hne

/-- Witness for C2: declared size 999, chunks of 100 and 50 bytes; the
attributes report 150. -/
theorem attr_reports_corrected_size_witness :
    Restic.lookupSizes Restic.demoRepo Restic.demoNode.content = .ok [100, 50] ∧
    Restic.newFile Restic.demoRepo Restic.demoNode false = .ok Restic.demoFile ∧
    ([100, 50] : List Nat).sum ≠ Restic.demoNode.size ∧
    (Restic.fileAttr Restic.demoFile).size = ([100, 50] : List Nat).sum ∧
    (Restic.fileAttr Restic.demoFile).size ≠ Restic.demoNode.size := by
  refine ⟨rfl, rfl, by decide, ?_⟩
  exact attr_reports_corrected_size Unit Restic.demoRepo Restic.demoNode false
    Restic.demoFile [100, 50] rfl rfl (by decide)

/-- Counterexample to C4 as stated: a zero-size file read at offset 1 fails
with the offset error instead of returning an empty result, because `Read`
checks `uint64(offset) > f.node.Size` before the empty-file special case. -/
theorem read_zero_size_nonzero_offset_errors :
    (Restic.sampleFile 0).node.size = 0 ∧
    (Restic.read Restic.unitRepo (Restic.sampleFile 0) [] 1 5).1 =
      .error .offsetGreaterThanFileSize :=
  ⟨rfl, rfl⟩

/-- C4 amended: a zero-size file read returns an empty result without error
exactly at offset 0 (for any requested length); at any other int64 offset it
fails with the offset error. -/
theorem read_zero_size_amended (ε : Type) (repo : Restic.BlobLoader ε)
    (f : Restic.File) (pool : Restic.Pool) (offset : Int) (reqSize : Nat)
    (hsz : f.node.size = 0) (hlo : -(2 ^ 63) ≤ offset) (hhi : offset < 2 ^ 63) :
    (offset = 0 → Restic.read repo f pool offset reqSize = (.ok [], f, pool)) ∧
    (offset ≠ 0 → (Restic.read repo f pool offset reqSize).1 =
      .error .offsetGreaterThanFileSize) := by
  constructor
  · intro h0
    subst h0
    unfold Restic.read
    rw [if_neg, if_pos hsz]
    simp [Restic.goUInt64]
  · intro h0
    unfold Restic.read
    rw [if_pos]
    simp only [Restic.goUInt64]
    omega

/-- Witness for C4's amendment at a zero-size file, offsets 0 and 1. -/
theorem read_zero_size_amended_witness :
    (Restic.sampleFile 0).node.size = 0 ∧
    Restic.read Restic.unitRepo (Restic.sampleFile 0) [] 0 5 =
      (.ok [], Restic.sampleFile 0, []) ∧
    (Restic.read Restic.unitRepo (Restic.sampleFile 0) [] 1 5).1 =
      .error .offsetGreaterThanFileSize :=
  ⟨rfl,
   (read_zero_size_amended Unit Restic.unitRepo (Restic.sampleFile 0) [] 0 5 rfl
      (by decide) (by decide)).1 rfl,
   (read_zero_size_amended Unit Restic.unitRepo (Restic.sampleFile 0) [] 1 5 rfl
      (by decide) (by decide)).2 (by decide)⟩

/-- C10: for a file smaller than 2^63 bytes, every strictly negative int64
read offset fails with the offset error — the signed offset is converted to
uint64, wrapping above the file size — and the result, file state and pool
are untouched and independent of the blob source, so no chunk is loaded. -/
theorem read_negative_offset_errors (ε : Type) (repo : Restic.BlobLoader ε)
    (f : Restic.File) (pool : Restic.Pool) (offset : Int) (reqSize : Nat)
    (hsz : f.node.size < 2 ^ 63) (hlo : -(2 ^ 63) ≤ offset) (hneg : offset < 0) :
    Restic.read repo f pool offset reqSize =
      (.error .offsetGreaterThanFileSize, f, pool) := by
  unfold Restic.read
  rw [if_pos]
  simp only [Restic.goUInt64]
  omega

/-- Witness for C10 at offset -1 on a 150-byte file. -/
theorem read_negative_offset_errors_witness :
    Restic.demoFile.node.size < 2 ^ 63 ∧
    Restic.read Restic.demoRepo Restic.demoFile [] (-1) 4096 =
      (.error .offsetGreaterThanFileSize, Restic.demoFile, []) :=
  ⟨by decide, read_negative_offset_errors Unit Restic.demoRepo Restic.demoFile []
    (-1) 4096 (by decide) (by decide) (by decide)⟩

/-- C5: if the size lookup fails for any chunk identifier in the node's
content list, `newFile` fails with a lookup error propagated verbatim and
returns no file object. -/
theorem newFile_fails_on_lookup_error (ε : Type) (repo : Restic.BlobLoader ε)
    (node : Restic.Node) (root : Bool)
    (h : ∃ id ∈ node.content, ∃ e, repo.lookupBlobSize id = .error e) :
    ∃ id e, id ∈ node.content ∧ repo.lookupBlobSize id = .error e ∧
      Restic.newFile repo node root = .error e := by
  obtain ⟨id, e, hm, he, hls⟩ := Restic.lookupSizes_error_of_mem repo node.content h
  exact ⟨id, e, hm, he, by simp [Restic.newFile, hls]⟩

/-- Witness for C5: a node whose only chunk id fails its size lookup. -/
theorem newFile_fails_on_lookup_error_witness :
    (∃ id ∈ ({ Restic.demoNode with content := [7] } : Restic.Node).content,
      ∃ e, Restic.failRepo.lookupBlobSize id = .error e) ∧
    ∃ id e, id ∈ ({ Restic.demoNode with content := [7] } : Restic.Node).content ∧
      Restic.failRepo.lookupBlobSize id = .error e ∧
      Restic.newFile Restic.failRepo { Restic.demoNode with content := [7] } false =
        .error e :=
  ⟨⟨7, by simp, (), rfl⟩,
   newFile_fails_on_lookup_error Unit Restic.failRepo
     { Restic.demoNode with content := [7] } false ⟨7, by simp, (), rfl⟩⟩

/-- C6: the chunk-cache contract of `getBlobAt`.  A cached chunk is returned
as-is with nothing reloaded and no state change, for any loader.  On a load
failure the error is propagated and the file (hence the cache slot) is left
untouched.  On a successful load the loaded slice (already trimmed to the
bytes actually written) is cached at index `i`, and a later call returns
that cached slice unchanged for any loader, without reloading. -/
theorem getBlobAt_cache_contract (ε : Type)
    (repo repoE repoO repo2 : Restic.BlobLoader ε) (f : Restic.File)
    (pool pool2 : Restic.Pool) (i : Nat) (cached bs : List Nat) (e : ε) :
    (f.blobs.getD i none = some cached →
      Restic.getBlobAt repo f pool i = (.ok cached, f, pool)) ∧
    (f.blobs.getD i none = none →
      (∀ buf, repoE.loadBlob (f.node.content.getD i 0) buf = .error e) →
      (Restic.getBlobAt repoE f pool i).1 = .error e ∧
      (Restic.getBlobAt repoE f pool i).2.1 = f) ∧
    (f.blobs.getD i none = none → i < f.blobs.length →
      (∀ buf, repoO.loadBlob (f.node.content.getD i 0) buf = .ok bs) →
      (Restic.getBlobAt repoO f pool i).1 = .ok bs ∧
      (Restic.getBlobAt repoO f pool i).2.1 =
        { f with blobs := f.blobs.set i (some bs) } ∧
      ({ f with blobs := f.blobs.set i (some bs) } : Restic.File).blobs.getD i none
          = some bs ∧
      Restic.getBlobAt repo2 { f with blobs := f.blobs.set i (some bs) } pool2 i =
        (.ok bs, { f with blobs := f.blobs.set i (some bs) }, pool2)) := by
  refine ⟨?_, ?_, ?_⟩
  · intro h
    simp only [List.getD_eq_getElem?_getD] at h
    simp [Restic.getBlobAt, h]
  · intro hnone hload
    simp only [List.getD_eq_getElem?_getD] at hnone hload
    constructor <;> simp [Restic.getBlobAt, hnone, hload]
  · intro hnone hlen hload
    have hset : ({ f with blobs := f.blobs.set i (some bs) } : Restic.File).blobs.getD
        i none = some bs := by
      show (f.blobs.set i (some bs)).getD i none = some bs
      rw [Restic.getD_set_opt]
      simp [hlen]
    simp only [List.getD_eq_getElem?_getD] at hnone hload
    have hset' := hset
    simp only [List.getD_eq_getElem?_getD] at hset'
    refine ⟨?_, ?_, hset, ?_⟩
    · simp [Restic.getBlobAt, hnone, hload]
    · simp [Restic.getBlobAt, hnone, hload]
    · simp [Restic.getBlobAt, hset']

/-- Witness for C6: a cache hit, a failing load, and a successful load with
its subsequent cache hit, at one-chunk files. -/
theorem getBlobAt_cache_contract_witness :
    Restic.getBlobAt Restic.failRepo Restic.cachedFile [] 0 =
      (.ok [9], Restic.cachedFile, []) ∧
    (Restic.getBlobAt Restic.failRepo Restic.uncachedFile [] 0).1 = .error () ∧
    (Restic.getBlobAt Restic.failRepo Restic.uncachedFile [] 0).2.1 =
      Restic.uncachedFile ∧
    (Restic.getBlobAt Restic.demoRepo Restic.uncachedFile [] 0).1 =
      .ok (List.replicate 100 1) ∧
    Restic.getBlobAt Restic.failRepo
      { Restic.uncachedFile with
        blobs := Restic.uncachedFile.blobs.set 0 (some (List.replicate 100 1)) } [[3]] 0 =
      (.ok (List.replicate 100 1),
       { Restic.uncachedFile with
         blobs := Restic.uncachedFile.blobs.set 0 (some (List.replicate 100 1)) }, [[3]]) := by
  have h1 := (getBlobAt_cache_contract Unit Restic.failRepo Restic.failRepo
    Restic.demoRepo Restic.failRepo Restic.cachedFile [] [] 0 [9]
    (List.replicate 100 1) ()).1 rfl
  have h2 := (getBlobAt_cache_contract Unit Restic.failRepo Restic.failRepo
    Restic.demoRepo Restic.failRepo Restic.uncachedFile [] [[3]] 0 [9]
    (List.replicate 100 1) ()).2.1 rfl (fun _ => rfl)
  have h3 := (getBlobAt_cache_contract Unit Restic.failRepo Restic.failRepo
    Restic.demoRepo Restic.failRepo Restic.uncachedFile [] [[3]] 0 [9]
    (List.replicate 100 1) ()).2.2 rfl (by decide) (fun _ => rfl)
  exact ⟨h1, h2.1, h2.2, h3.1, h3.2.2.2⟩

namespace Restic

/-- Cache consistency: every filled chunk-cache slot holds its chunk. -/
def CacheOk (chunks : List (List Nat)) (f : File) : Prop :=
  ∀ k, f.blobs.getD k none = none ∨ f.blobs.getD k none = some (chunks.getD k [])

lemma take_min_length {α : Type} (l : List α) (r : Nat) :
    l.take r = l.take (min r l.length) := by
  rcases le_total r l.length with h | h
  · rw [Nat.min_eq_left h]
  · rw [Nat.min_eq_right h, List.take_of_length_le h, List.take_length]

lemma getBlobAt_chunks {ε : Type} (repo : BlobLoader ε) (chunks : List (List Nat))
    (f : File) (pool : Pool) (i : Nat)
    (hcache : CacheOk chunks f)
    (hload : ∀ buf, repo.loadBlob (f.node.content.getD i 0) buf =
      .ok (chunks.getD i [])) :
    (getBlobAt repo f pool i).1 = .ok (chunks.getD i []) ∧
    (getBlobAt repo f pool i).2.1.node = f.node ∧
    (getBlobAt repo f pool i).2.1.sizes = f.sizes ∧
    CacheOk chunks (getBlobAt repo f pool i).2.1 := by
  rcases hcache i with h | h
  · have hg : (getBlobAt repo f pool i).1 = .ok (chunks.getD i []) ∧
        (getBlobAt repo f pool i).2.1 =
          { f with blobs := f.blobs.set i (some (chunks.getD i [])) } := by
      have h' := h
      have hload' := hload
      simp only [List.getD_eq_getElem?_getD] at h' hload'
      constructor <;> simp [getBlobAt, h', hload']
    refine ⟨hg.1, by rw [hg.2], by rw [hg.2], ?_⟩
    rw [hg.2]
    intro k
    show (f.blobs.set i (some (chunks.getD i []))).getD k none = none ∨ _
    rw [getD_set_opt]
    by_cases hk : k = i ∧ i < f.blobs.length
    · rw [if_pos hk]
      right
      rw [hk.1]
    · rw [if_neg hk]
      exact hcache k
  · have h' := h
    simp only [List.getD_eq_getElem?_getD] at h'
    have hg : getBlobAt repo f pool i = (.ok (chunks.getD i []), f, pool) := by
      simp [getBlobAt, h']
    rw [hg]
    exact ⟨rfl, rfl, rfl, hcache⟩

end Restic

namespace Restic

lemma readBlobs_spec {ε : Type} (repo : BlobLoader ε) (chunks : List (List Nat))
    (content : List Nat) :
    ∀ (fuel : Nat) (f : File) (pool : Pool) (i off r : Nat) (acc : List Nat),
      f.node.content = content →
      f.sizes = chunks.map List.length →
      CacheOk chunks f →
      (∀ j, j < chunks.length → ∀ buf,
        repo.loadBlob (content.getD j 0) buf = .ok (chunks.getD j [])) →
      chunks.length - i ≤ fuel →
      off ≤ (chunks.getD i []).length →
      (readBlobs repo fuel f pool i off r acc).1 =
        .ok (acc ++ ((chunks.drop i).flatten.drop off).take r) := by
  intro fuel
  induction fuel with
  | zero =>
    intro f pool i off r acc hc hsz hcache hload hfuel hoff
    have hi : chunks.length ≤ i := by omega
    rw [List.drop_eq_nil_of_le hi]
    simp [readBlobs]
  | succ fuel ih =>
    intro f pool i off r acc hc hsz hcache hload hfuel hoff
    by_cases hguard : r = 0 ∨ f.sizes.length ≤ i
    · rcases hguard with h0 | hle
      · subst h0
        simp [readBlobs]
      · have hi : chunks.length ≤ i := by
          rw [hsz] at hle
          simpa using hle
        rw [List.drop_eq_nil_of_le hi]
        simp [readBlobs, hle]
    · have hr0 : r ≠ 0 := fun h => hguard (Or.inl h)
      have hilt : ¬ f.sizes.length ≤ i := fun h => hguard (Or.inr h)
      have hi : i < chunks.length := by
        rw [hsz] at hilt
        simpa using Nat.lt_of_not_le hilt
      obtain ⟨h1, h2, h3, h4⟩ := getBlobAt_chunks repo chunks f pool i hcache
        (by rw [hc]; exact hload i hi)
      rcases hgb : getBlobAt repo f pool i with ⟨res, f', pool'⟩
      rw [hgb] at h1 h2 h3 h4
      simp only at h1 h2 h3 h4
      subst h1
      have hstep : (readBlobs repo (fuel + 1) f pool i off r acc).1 =
          (readBlobs repo fuel f' pool' (i + 1) 0
            (r - min r ((chunks.getD i []).drop off).length)
            (acc ++ ((chunks.getD i []).drop off).take
              (min r ((chunks.getD i []).drop off).length))).1 := by
        rw [readBlobs]
        rw [if_neg hguard, hgb]
      rw [hstep]
      rw [ih f' pool' (i + 1) 0 (r - min r ((chunks.getD i []).drop off).length)
        (acc ++ ((chunks.getD i []).drop off).take
          (min r ((chunks.getD i []).drop off).length))
        (by rw [h2, hc]) (by rw [h3, hsz]) h4 hload (by omega) (Nat.zero_le _)]
      congr 1
      have hdrop : chunks.drop i = chunks.getD i [] :: chunks.drop (i + 1) := by
        rw [List.drop_eq_getElem_cons hi]
        congr 1
        rw [List.getD_eq_getElem?_getD, List.getElem?_eq_getElem hi]
        rfl
      rw [hdrop, List.flatten_cons, List.drop_append_of_le_length hoff,
        List.take_append_eq_append_take, List.drop_zero, List.append_assoc]
      congr 2
      · rcases le_total r ((chunks.getD i []).drop off).length with h | h
        · rw [Nat.min_eq_left h]
        · rw [Nat.min_eq_right h, List.take_of_length_le h, List.take_length]
      · congr 1
        omega

end Restic

namespace Restic

lemma skipBlobs_spec :
    ∀ (sizes : List Nat) (offset : Nat), sizes ≠ [] → offset ≤ sizes.sum →
      ∃ start off, skipBlobs sizes offset = some (start, off) ∧
        start < sizes.length ∧ off ≤ sizes.getD start 0 ∧
        (sizes.take start).sum + off = offset := by
  intro sizes
  induction sizes with
  | nil => intro offset h; exact absurd rfl h
  | cons s rest ih =>
    intro offset _ hsum
    rw [List.sum_cons] at hsum
    by_cases hlt : s < offset
    · have hrest : rest ≠ [] := by
        intro h
        subst h
        simp at hsum
        omega
      obtain ⟨st, off, heq, hstlt, hoff, htake⟩ := ih (offset - s) hrest (by omega)
      refine ⟨st + 1, off, ?_, ?_, ?_, ?_⟩
      · simp [skipBlobs, hlt, heq]
      · simpa using hstlt
      · simpa using hoff
      · rw [List.take_succ_cons, List.sum_cons]
        omega
    · refine ⟨0, offset, ?_, ?_, ?_, ?_⟩
      · simp [skipBlobs, hlt]
      · simp
      · simpa using Nat.le_of_not_lt hlt
      · simp

lemma read_spec {ε : Type} (repo : BlobLoader ε) (chunks : List (List Nat))
    (f : File) (pool : Pool) (offset reqSize : Nat)
    (hsz : f.sizes = chunks.map List.length)
    (hsum : f.node.size = f.sizes.sum)
    (hcache : CacheOk chunks f)
    (hload : ∀ j, j < chunks.length → ∀ buf,
      repo.loadBlob (f.node.content.getD j 0) buf = .ok (chunks.getD j []))
    (hoff : offset ≤ f.node.size) (hrep : offset < 2 ^ 63) :
    (read repo f pool (offset : Int) reqSize).1 =
      .ok ((chunks.flatten.drop offset).take (min reqSize (f.node.size - offset))) := by
  have hgo : goUInt64 (offset : Int) = offset := by
    simp only [goUInt64]
    omega
  unfold read
  rw [if_neg (by rw [hgo]; omega)]
  by_cases hz : f.node.size = 0
  · rw [if_pos hz]
    have h0 : offset = 0 := by omega
    subst h0
    simp [hz]
  · rw [if_neg hz]
    have hne : f.sizes ≠ [] := by
      intro h
      rw [h] at hsum
      simp at hsum
      exact hz hsum
    obtain ⟨start, off, heq, hstlt, hoffle, htake⟩ :=
      skipBlobs_spec f.sizes offset hne (by omega)
    rw [Int.toNat_ofNat, heq]
    have hstlt' : start < chunks.length := by
      rw [hsz] at hstlt
      simpa using hstlt
    have hgetd : f.sizes.getD start 0 = (chunks.getD start []).length := by
      rw [hsz]
      exact List.getD_map chunks [] List.length
    have hlenq : f.sizes.length = chunks.length := by
      rw [hsz, List.length_map]
    rw [readBlobs_spec repo chunks f.node.content f.sizes.length f pool start off
      reqSize [] rfl hsz hcache hload (by omega) (by rw [← hgetd]; exact hoffle)]
    have hAlen : (chunks.take start).flatten.length = (f.sizes.take start).sum := by
      rw [List.length_flatten, hsz, List.map_take]
    have hsplit : chunks.flatten.drop offset = (chunks.drop start).flatten.drop off := by
      conv_lhs => rw [← List.take_append_drop start chunks]
      rw [List.flatten_append, ← htake, ← hAlen, List.drop_append]
    have hlen2 : ((chunks.drop start).flatten.drop off).length =
        f.node.size - offset := by
      rw [List.length_drop, List.length_flatten, List.map_drop, ← hsz]
      have := List.sum_take_add_sum_drop f.sizes start
      omega
    rw [hsplit, take_min_length ((chunks.drop start).flatten.drop off) reqSize, hlen2,
      List.nil_append]

end Restic

/-- C1: for a file built by `newFile`, when every chunk load returns exactly
the chunk whose length is its looked-up size, `Read` at any offset with
`0 ≤ offset ≤ size` succeeds and returns exactly `min(length, size-offset)`
bytes, equal to the slice `[offset, offset + min(length, size-offset))` of
the concatenation of all chunks in content order. -/
theorem read_returns_chunk_slice (ε : Type) (repo : Restic.BlobLoader ε)
    (node : Restic.Node) (root : Bool) (f : Restic.File)
    (chunks : List (List Nat)) (pool : Restic.Pool) (offset reqSize : Nat)
    (hnew : Restic.newFile repo node root = .ok f)
    (hchunks : f.sizes = chunks.map List.length)
    (hload : ∀ j, j < chunks.length → ∀ buf,
      repo.loadBlob (f.node.content.getD j 0) buf = .ok (chunks.getD j []))
    (hoff : offset ≤ f.node.size) (hrep : offset < 2 ^ 63) :
    (Restic.read repo f pool (offset : Int) reqSize).1 =
      .ok ((chunks.flatten.drop offset).take (min reqSize (f.node.size - offset))) ∧
    ((chunks.flatten.drop offset).take (min reqSize (f.node.size - offset))).length =
      min reqSize (f.node.size - offset) := by
  obtain ⟨-, hsum, -, hblobs⟩ := Restic.newFile_inv hnew
  have hcache : Restic.CacheOk chunks f := by
    intro k
    left
    rw [hblobs]
    exact Restic.getD_replicate_none _ k
  refine ⟨Restic.read_spec repo chunks f pool offset reqSize hchunks hsum hcache hload
    hoff hrep, ?_⟩
  have hflat : chunks.flatten.length = f.node.size := by
    rw [List.length_flatten, ← hchunks, hsum]
  rw [List.length_take, List.length_drop, hflat]
  omega

namespace Restic

lemma demoRepo_load (j : Nat)
    (hj : j < ([List.replicate 100 1, List.replicate 50 2] : List (List Nat)).length)
    (buf : List Nat) :
    demoRepo.loadBlob (demoFile.node.content.getD j 0) buf =
      .ok (([List.replicate 100 1, List.replicate 50 2] : List (List Nat)).getD j []) := by
  have hj2 : j < 2 := by simpa using hj
  interval_cases j <;> rfl

end Restic

/-- Witness for C1: the two-chunk demo file (100 bytes of 1 then 50 bytes of
2), read at offset 90 for 30 bytes. -/
theorem read_returns_chunk_slice_witness :
    (Restic.read Restic.demoRepo Restic.demoFile [] ((90 : Nat) : Int) 30).1 =
      .ok ((([List.replicate 100 1, List.replicate 50 2] :
        List (List Nat)).flatten.drop 90).take
          (min 30 (Restic.demoFile.node.size - 90))) ∧
    ((([List.replicate 100 1, List.replicate 50 2] :
        List (List Nat)).flatten.drop 90).take
          (min 30 (Restic.demoFile.node.size - 90))).length =
      min 30 (Restic.demoFile.node.size - 90) :=
  read_returns_chunk_slice Unit Restic.demoRepo Restic.demoNode false Restic.demoFile
    [List.replicate 100 1, List.replicate 50 2] [] 90 30 rfl rfl
    Restic.demoRepo_load (by decide) (by decide)

/-- C3: for a file built by `newFile` with consistent chunk loads, `Read`
fails with the offset-out-of-range error at every int64 offset strictly
greater than the (corrected) node size, and succeeds with an empty result
at offset exactly equal to the node size. -/
theorem read_offset_boundary (ε : Type) (repo : Restic.BlobLoader ε)
    (node : Restic.Node) (root : Bool) (f : Restic.File)
    (chunks : List (List Nat)) (pool : Restic.Pool) (offset reqSize : Nat)
    (hnew : Restic.newFile repo node root = .ok f)
    (hchunks : f.sizes = chunks.map List.length)
    (hload : ∀ j, j < chunks.length → ∀ buf,
      repo.loadBlob (f.node.content.getD j 0) buf = .ok (chunks.getD j []))
    (hszrep : f.node.size < 2 ^ 63) :
    (f.node.size < offset → offset < 2 ^ 63 →
      (Restic.read repo f pool (offset : Int) reqSize).1 =
        .error .offsetGreaterThanFileSize) ∧
    (Restic.read repo f pool (f.node.size : Int) reqSize).1 = .ok [] := by
  obtain ⟨-, hsum, -, hblobs⟩ := Restic.newFile_inv hnew
  have hcache : Restic.CacheOk chunks f := by
    intro k
    left
    rw [hblobs]
    exact Restic.getD_replicate_none _ k
  constructor
  · intro hgt hlt
    unfold Restic.read
    rw [if_pos]
    simp only [Restic.goUInt64]
    omega
  · have h := Restic.read_spec repo chunks f pool f.node.size reqSize hchunks hsum
      hcache hload (le_refl _) hszrep
    rw [h]
    simp

/-- Witness for C3 at the demo file: offset 151 errors, offset 150 (the
size) reads empty. -/
theorem read_offset_boundary_witness :
    (Restic.read Restic.demoRepo Restic.demoFile [] ((151 : Nat) : Int) 10).1 =
      .error .offsetGreaterThanFileSize ∧
    (Restic.read Restic.demoRepo Restic.demoFile []
      (Restic.demoFile.node.size : Int) 10).1 = .ok [] := by
  have h := read_offset_boundary Unit Restic.demoRepo Restic.demoNode false
    Restic.demoFile [List.replicate 100 1, List.replicate 50 2] [] 151 10 rfl rfl
    Restic.demoRepo_load (by decide)
  exact ⟨h.1 (by decide) (by decide), h.2⟩
